import Mathlib

/-!
Verification of the device-flow credential helper
(`src/utils/checkin_token_device.py`) against its specification.

The development shallowly embeds the Python module:

* JSON values are modelled by the mutual inductive `JVal`/`JArr`/`JObj`
  (objects keep field order; `jlook` models `dict.get`, last key wins as in
  Python's `json` module).
* An HTTP response from the token endpoint is `HttpResp`: a status code, the
  parsed JSON body when `resp.json()` succeeds (`none` models an unparseable
  body), and the raw text used by `resp.text` fallbacks.
* `poll_token_endpoint`'s loop becomes `pollLoopAux`, driven by a finite
  script of responses.  Time is idealised: the sleeps are the only way the
  clock advances, so `elapsed` is the sum of the intervals slept so far.
  The record returned exposes the outcome, the elapsed time, the number of
  HTTP POSTs issued and the unconsumed part of the script.
* `save_tokens`/`load_tokens` act on a functional file system
  `FS = String → Option FileRec`; JSON serialisation is a concrete
  printer/parser pair proved to round-trip (whitespace/indentation is
  abstracted away: the printer emits the compact form, which the parser and
  the round-trip property are insensitive to).
-/
/-! ### JSON values (the shape `resp.json()` / `json.load` return) -/
mutual
inductive JVal : Type where
  | jnull : JVal
  | jbool : Bool → JVal
  | jnum : Int → JVal
  | jstr : String → JVal
  | jarr : JArr → JVal
  | jobj : JObj → JVal
inductive JArr : Type where
  | anil : JArr
  | acons : JVal → JArr → JArr
inductive JObj : Type where
  | onil : JObj
  | ocons : String → JVal → JObj → JObj
end

/-- `dict.get k`: Python's `json` keeps the last binding of a duplicated key,
so later bindings shadow earlier ones. -/
def jlook (k : String) : JObj → Option JVal
  | .onil => none
  | .ocons k2 v rest =>
    match jlook k rest with
    | some r => some r
    | none => if k2 = k then some v else none

/-! ### HTTP responses -/
/-- A token-endpoint HTTP response as the module observes it: status code,
the parsed JSON body (`none` when `resp.json()` raises) and the raw text. -/
structure HttpResp where
  status : Nat
  body : Option JVal
  text : String

/-! ### The poll loop of `poll_token_endpoint` -/
/-- Line 123: `current_interval = min(current_interval + 5, 30)` — the
backoff update applied on a `slow_down` response. -/
def slow_down_update (i : Int) : Int := min (i + 5) 30

/-- Line 85: `current_interval = max(5, int(interval or 5))`.  `interval` is
an `int` here (run_device_flow already defaulted a missing field to 5), so
`interval or 5` is `5` exactly when `interval == 0`. -/
def poll_init_interval (interval : Int) : Int :=
  max 5 (if interval = 0 then 5 else interval)

/-- Outcome of the poll loop: either the returned token JSON or which
exception was raised. -/
inductive PollOutcome where
  | success (tokens : JVal)
  | timeout
  | rejected (err : String) (body : JObj)
  | unexpected (status : Nat) (body : JObj)
  | httpError (status : Nat)
  | jsonError
  | attrError (status : Nat)

/-- State of a finished (or script-exhausted) run of the poll loop. -/
structure LoopRun where
  result : Option PollOutcome
  elapsed : Int
  calls : Nat
  remaining : List HttpResp

/-- The `while True` loop of `poll_token_endpoint` (lines 87-131), driven by
a finite script `rs` of responses.  `elapsed` is the idealised
`time.time() - began` (sleeps are the only passage of time), `interval` is
`current_interval`, `calls` counts the HTTP POSTs issued so far.  When the
script runs out while the loop would poll again, `result` is `none`. -/
def pollLoopAux (timeoutSec : Int) (rs : List HttpResp) (elapsed interval : Int)
    (calls : Nat) : LoopRun :=
  if elapsed > timeoutSec then ⟨some .timeout, elapsed, calls, rs⟩
  else
    match rs with
    | [] => ⟨none, elapsed, calls, []⟩
    | r :: rest =>
      if r.status = 200 then
        match r.body with
        | some b => ⟨some (.success b), elapsed, calls + 1, rest⟩
        | none => ⟨some .jsonError, elapsed, calls + 1, rest⟩
      else
        match r.body with
        | none => ⟨some (.httpError r.status), elapsed, calls + 1, rest⟩
        | some (.jobj fields) =>
          match jlook "error" fields with
          | some (.jstr e) =>
            if e = "authorization_pending" then
              pollLoopAux timeoutSec rest (elapsed + interval) interval (calls + 1)
            else if e = "slow_down" then
              pollLoopAux timeoutSec rest (elapsed + slow_down_update interval)
                (slow_down_update interval) (calls + 1)
            else if e = "access_denied" ∨ e = "expired_token" ∨ e = "invalid_grant" then
              ⟨some (.rejected e fields), elapsed, calls + 1, rest⟩
            else
              ⟨some (.unexpected r.status fields), elapsed, calls + 1, rest⟩
          | some _ => ⟨some (.unexpected r.status fields), elapsed, calls + 1, rest⟩
          | none => ⟨some (.unexpected r.status fields), elapsed, calls + 1, rest⟩
        | some _ => ⟨some (.attrError r.status), elapsed, calls + 1, rest⟩

/-- `poll_token_endpoint` entered with a server-suggested `interval` and a
`timeout_seconds` budget (elapsed starts at 0, no call issued yet). -/
def poll_token_endpoint (rs : List HttpResp) (interval : Int)
    (timeoutSec : Int) : LoopRun :=
  pollLoopAux timeoutSec rs 0 (poll_init_interval interval) 0

/-- Line 79: the default of the `timeout_seconds` parameter. -/
def poll_token_endpoint_default_timeout : Int := 300

/-- Line 188: `interval = int(resp.get("interval", 5))` in `run_device_flow`. -/
def run_device_flow_interval (respInterval : Option Int) : Int :=
  respInterval.getD 5

/-- Line 211: `run_device_flow` always passes `timeout_seconds=900`. -/
def run_device_flow_timeout : Int := 900

/-- The polling stage of `run_device_flow` (lines 206-212): the device-auth
response's `interval` field (absent ↦ `none`) and its `expires_in` field are
received, and the loop is entered with the 900 s budget.  `expires_in` is a
parameter only to record that the code never reads it. -/
def run_device_flow_poll (respInterval : Option Int) (_expiresIn : Option Int)
    (rs : List HttpResp) : LoopRun :=
  poll_token_endpoint rs (run_device_flow_interval respInterval)
    run_device_flow_timeout

/-! ### Classifying poll responses -/
/-- The `error` field the loop extracts: `resp.json().get("error")`, defined
when the body parses to an object. -/
def respErr (r : HttpResp) : Option JVal :=
  match r.body with
  | some (.jobj fields) => jlook "error" fields
  | _ => none

/-- A response the loop treats as `authorization_pending`. -/
def isPendingResp (r : HttpResp) : Bool :=
  decide (r.status ≠ 200) &&
    match r.body with
    | some (.jobj fields) =>
      match jlook "error" fields with
      | some (.jstr e) => decide (e = "authorization_pending")
      | _ => false
    | _ => false

/-- A response the loop treats as `slow_down`. -/
def isSlowDownResp (r : HttpResp) : Bool :=
  decide (r.status ≠ 200) &&
    match r.body with
    | some (.jobj fields) =>
      match jlook "error" fields with
      | some (.jstr e) => decide (e = "slow_down")
      | _ => false
    | _ => false

/-- The successive sleep durations the loop performs on a script of
pending/slow_down responses, starting from interval `i` (stops at the first
response that is neither). -/
def pendingSleeps : List HttpResp → Int → List Int
  | [], _ => []
  | r :: rest, i =>
    if isPendingResp r then i :: pendingSleeps rest i
    else if isSlowDownResp r then
      slow_down_update i :: pendingSleeps rest (slow_down_update i)
    else []

/-! ### Concrete responses used in witnesses -/
/-- A 400 response with body `{"error": "authorization_pending"}`. -/
def pendingResp : HttpResp :=
  ⟨400, some (.jobj (.ocons "error" (.jstr "authorization_pending") .onil)), ""⟩

/-- A 400 response with body `{"error": "slow_down"}`. -/
def slowDownResp : HttpResp :=
  ⟨400, some (.jobj (.ocons "error" (.jstr "slow_down") .onil)), ""⟩

/-- The body `{"error": "access_denied"}`. -/
def deniedBody : JObj := .ocons "error" (.jstr "access_denied") .onil

/-- A 400 response with body `{"error": "access_denied"}`. -/
def deniedResp : HttpResp := ⟨400, some (.jobj deniedBody), ""⟩

/-! ### JSON serialisation (stands in for `json.dump` in `save_tokens`) -/
/-- The double-quote character. -/
def quoteChar : Char := Char.ofNat 34

/-- The backslash character. -/
def backslashChar : Char := Char.ofNat 92

/-- The opening-brace character. -/
def lbraceChar : Char := Char.ofNat 123

/-- The closing-brace character. -/
def rbraceChar : Char := Char.ofNat 125

/-- Lower-case hexadecimal digit for a value below 16. -/
def hexDigitChar : Nat → Char
  | 0 => '0' | 1 => '1' | 2 => '2' | 3 => '3' | 4 => '4'
  | 5 => '5' | 6 => '6' | 7 => '7' | 8 => '8' | 9 => '9'
  | 10 => 'a' | 11 => 'b' | 12 => 'c' | 13 => 'd' | 14 => 'e'
  | _ => 'f'

/-- Decimal digit character for a value below 10. -/
def decDigitChar : Nat → Char
  | 0 => '0' | 1 => '1' | 2 => '2' | 3 => '3' | 4 => '4'
  | 5 => '5' | 6 => '6' | 7 => '7' | 8 => '8' | _ => '9'

/-- JSON string escaping of one character: quote, backslash and the named
control escapes get a backslash form, other control characters become
`\u00XX`, everything else is emitted verbatim. -/
def escChar (c : Char) : List Char :=
  if c = quoteChar then [backslashChar, quoteChar]
  else if c = backslashChar then [backslashChar, backslashChar]
  else if c = Char.ofNat 10 then [backslashChar, 'n']
  else if c = Char.ofNat 9 then [backslashChar, 't']
  else if c = Char.ofNat 13 then [backslashChar, 'r']
  else if c = Char.ofNat 8 then [backslashChar, 'b']
  else if c = Char.ofNat 12 then [backslashChar, 'f']
  else if c.toNat < 32 then
    [backslashChar, 'u', '0', '0',
      hexDigitChar (c.toNat / 16), hexDigitChar (c.toNat % 16)]
  else [c]

/-- A JSON string literal: quote, escaped characters, quote. -/
def serializeStrChars (s : String) : List Char :=
  quoteChar :: (s.data.map escChar).flatten ++ [quoteChar]

/-- Decimal digits of a natural number, most significant first. -/
def natChars (n : Nat) : List Char :=
  if n = 0 then ['0']
  else (Nat.digits 10 n).reverse.map decDigitChar

/-- Decimal rendering of an integer. -/
def intChars (n : Int) : List Char :=
  if n < 0 then '-' :: natChars n.natAbs else natChars n.natAbs

mutual
/-- Compact JSON printing of a value. -/
def serializeVal : JVal → List Char
  | .jnull => ['n', 'u', 'l', 'l']
  | .jbool true => ['t', 'r', 'u', 'e']
  | .jbool false => ['f', 'a', 'l', 's', 'e']
  | .jnum n => intChars n
  | .jstr s => serializeStrChars s
  | .jarr .anil => ['[', ']']
  | .jarr (.acons v rest) =>
    '[' :: (serializeVal v ++ (serializeArrTail rest ++ [']']))
  | .jobj .onil => [lbraceChar, rbraceChar]
  | .jobj (.ocons k v rest) =>
    lbraceChar :: (serializeStrChars k ++ (':' :: (serializeVal v ++
      (serializeObjTail rest ++ [rbraceChar]))))
/-- Second and later array elements, each preceded by a comma. -/
def serializeArrTail : JArr → List Char
  | .anil => []
  | .acons v rest => ',' :: (serializeVal v ++ serializeArrTail rest)
/-- Second and later object members, each preceded by a comma. -/
def serializeObjTail : JObj → List Char
  | .onil => []
  | .ocons k v rest =>
    ',' :: (serializeStrChars k ++ (':' :: (serializeVal v ++ serializeObjTail rest)))
end

/-! ### JSON parsing (stands in for `json.load` in `load_tokens`) -/
/-- Hexadecimal digit value of a character. -/
def hexVal (c : Char) : Option Nat :=
  if c = '0' then some 0 else if c = '1' then some 1
  else if c = '2' then some 2 else if c = '3' then some 3
  else if c = '4' then some 4 else if c = '5' then some 5
  else if c = '6' then some 6 else if c = '7' then some 7
  else if c = '8' then some 8 else if c = '9' then some 9
  else if c = 'a' then some 10 else if c = 'b' then some 11
  else if c = 'c' then some 12 else if c = 'd' then some 13
  else if c = 'e' then some 14 else if c = 'f' then some 15
  else if c = 'A' then some 10 else if c = 'B' then some 11
  else if c = 'C' then some 12 else if c = 'D' then some 13
  else if c = 'E' then some 14 else if c = 'F' then some 15
  else none

/-- Prepend a character to the output of a string-literal parse. -/
def consCh (c : Char) : Option (List Char × List Char) → Option (List Char × List Char)
  | some (out, rest) => some (c :: out, rest)
  | none => none

/-- Four hexadecimal digits, as in the `\uXXXX` escape. -/
def parseHex4 : List Char → Option (Nat × List Char)
  | h1 :: h2 :: h3 :: h4 :: rest =>
    match hexVal h1, hexVal h2, hexVal h3, hexVal h4 with
    | some v1, some v2, some v3, some v4 =>
      some (4096 * v1 + 256 * v2 + 16 * v3 + v4, rest)
    | _, _, _, _ => none
  | _ => none

/-- The character denoted by a single-letter escape (`\X` for `X ≠ u`). -/
def parseEscCh (e : Char) : Option Char :=
  if e = quoteChar then some quoteChar
  else if e = backslashChar then some backslashChar
  else if e = '/' then some '/'
  else if e = 'n' then some (Char.ofNat 10)
  else if e = 't' then some (Char.ofNat 9)
  else if e = 'r' then some (Char.ofNat 13)
  else if e = 'b' then some (Char.ofNat 8)
  else if e = 'f' then some (Char.ofNat 12)
  else none

/-- Parse the remainder of a JSON string literal (after the opening quote),
decoding escapes, up to and including the closing quote.  The fuel argument
only makes the recursion structural; any fuel above the input length is in
surplus. -/
def parseStrLit : Nat → List Char → Option (List Char × List Char)
  | 0, _ => none
  | fu + 1, cs =>
    match cs with
    | [] => none
    | c :: cs2 =>
      if c = quoteChar then some ([], cs2)
      else if c = backslashChar then
        match cs2 with
        | [] => none
        | e :: cs3 =>
          if e = 'u' then
            match parseHex4 cs3 with
            | some (n, cs4) => consCh (Char.ofNat n) (parseStrLit fu cs4)
            | none => none
          else
            match parseEscCh e with
            | some d => consCh d (parseStrLit fu cs3)
            | none => none
      else consCh c (parseStrLit fu cs2)

/-- Is this an ASCII decimal digit? -/
def isDigitCh (c : Char) : Bool := 48 ≤ c.toNat && c.toNat ≤ 57

/-- Digit value of an ASCII decimal digit. -/
def digitVal (c : Char) : Nat := c.toNat - 48

/-- Consume a maximal run of decimal digits, accumulating their value. -/
def parseNatAux : List Char → Nat → Nat × List Char
  | [], acc => (acc, [])
  | c :: cs, acc =>
    if isDigitCh c then parseNatAux cs (10 * acc + digitVal c)
    else (acc, c :: cs)

/-- Parse a nonempty run of decimal digits. -/
def parsePosNat : List Char → Option (Nat × List Char)
  | [] => none
  | c :: cs =>
    if isDigitCh c then some (parseNatAux cs (digitVal c))
    else none

mutual
/-- Recursive-descent JSON value parser; the fuel argument only makes the
mutual recursion structural and is in surplus on every input parsed here. -/
def parseVal : Nat → List Char → Option (JVal × List Char)
  | 0, _ => none
  | fu + 1, cs =>
    match cs with
    | [] => none
    | c :: rest =>
      if c = 'n' then
        match rest with
        | 'u' :: 'l' :: 'l' :: rest2 => some (.jnull, rest2)
        | _ => none
      else if c = 't' then
        match rest with
        | 'r' :: 'u' :: 'e' :: rest2 => some (.jbool true, rest2)
        | _ => none
      else if c = 'f' then
        match rest with
        | 'a' :: 'l' :: 's' :: 'e' :: rest2 => some (.jbool false, rest2)
        | _ => none
      else if c = quoteChar then
        match parseStrLit (rest.length + 1) rest with
        | some (out, rest2) => some (.jstr (String.mk out), rest2)
        | none => none
      else if c = '-' then
        match parsePosNat rest with
        | some (n, rest2) => some (.jnum (-(n : Int)), rest2)
        | none => none
      else if isDigitCh c then
        match parsePosNat (c :: rest) with
        | some (n, rest2) => some (.jnum ((n : Nat) : Int), rest2)
        | none => none
      else if c = '[' then
        match rest with
        | [] => none
        | c2 :: rest2 =>
          if c2 = ']' then some (.jarr .anil, rest2)
          else
            match parseVal fu (c2 :: rest2) with
            | some (v, rest3) =>
              match parseArrRest fu rest3 with
              | some (a, rest4) => some (.jarr (.acons v a), rest4)
              | none => none
            | none => none
      else if c = lbraceChar then
        match rest with
        | [] => none
        | c2 :: rest2 =>
          if c2 = rbraceChar then some (.jobj .onil, rest2)
          else if c2 = quoteChar then
            match parseStrLit (rest2.length + 1) rest2 with
            | some (key, rest3) =>
              match rest3 with
              | ':' :: rest4 =>
                match parseVal fu rest4 with
                | some (v, rest5) =>
                  match parseObjRest fu rest5 with
                  | some (o, rest6) => some (.jobj (.ocons (String.mk key) v o), rest6)
                  | none => none
                | none => none
              | _ => none
            | none => none
          else none
      else none
/-- Parse the rest of a JSON array after one element: `,`-led elements up to
the closing bracket. -/
def parseArrRest : Nat → List Char → Option (JArr × List Char)
  | 0, _ => none
  | fu + 1, cs =>
    match cs with
    | [] => none
    | c :: rest =>
      if c = ']' then some (.anil, rest)
      else if c = ',' then
        match parseVal fu rest with
        | some (v, rest2) =>
          match parseArrRest fu rest2 with
          | some (a, rest3) => some (.acons v a, rest3)
          | none => none
        | none => none
      else none
/-- Parse the rest of a JSON object after one member: `,`-led members up to
the closing brace. -/
def parseObjRest : Nat → List Char → Option (JObj × List Char)
  | 0, _ => none
  | fu + 1, cs =>
    match cs with
    | [] => none
    | c :: rest =>
      if c = rbraceChar then some (.onil, rest)
      else if c = ',' then
        match rest with
        | [] => none
        | c2 :: rest2 =>
          if c2 = quoteChar then
            match parseStrLit (rest2.length + 1) rest2 with
            | some (key, rest3) =>
              match rest3 with
              | ':' :: rest4 =>
                match parseVal fu rest4 with
                | some (v, rest5) =>
                  match parseObjRest fu rest5 with
                  | some (o, rest6) => some (.ocons (String.mk key) v o, rest6)
                  | none => none
                | none => none
              | _ => none
            | none => none
          else none
      else none
end

/-- Skip JSON whitespace. -/
def skipWs : List Char → List Char
  | [] => []
  | c :: cs =>
    if c.toNat = 32 ∨ c.toNat = 10 ∨ c.toNat = 9 ∨ c.toNat = 13 then skipWs cs
    else c :: cs

/-- `json.load`: parse a whole document, allowing trailing whitespace. -/
def parseJson (s : String) : Option JVal :=
  match parseVal (s.data.length + 1) s.data with
  | some (v, rest) => if skipWs rest = [] then some v else none
  | none => none

/-! ### Round-trip: digits and numbers -/
/-- Head-of-input guard used by the number round-trip: parsing a number
consumes a maximal digit run, so what follows must not start with a digit. -/
def headNotDigit : List Char → Bool
  | [] => true
  | c :: _ => !isDigitCh c

/-! ### Round-trip: sizes and serialiser shape -/
mutual
/-- Nesting depth of a JSON value (drives the parser fuel bound). -/
def sizeV : JVal → Nat
  | .jnull => 1
  | .jbool _ => 1
  | .jnum _ => 1
  | .jstr _ => 1
  | .jarr a => sizeA a + 1
  | .jobj o => sizeO o + 1
/-- Nesting depth of an array tail. -/
def sizeA : JArr → Nat
  | .anil => 1
  | .acons v r => max (sizeV v) (sizeA r) + 1
/-- Nesting depth of an object tail. -/
def sizeO : JObj → Nat
  | .onil => 1
  | .ocons _ v r => max (sizeV v) (sizeO r) + 1
end

/-! ### Token persistence: `save_tokens` and `load_tokens` -/
/-- A file on disk: contents and permission bits. -/
structure FileRec where
  content : String
  mode : Nat

/-- The local file system, as a map from paths to files. -/
abbrev FS : Type := String → Option FileRec

/-- Create or overwrite the file at `p`. -/
def fsWrite (fs : FS) (p : String) (r : FileRec) : FS :=
  fun q => if q = p then some r else fs q

/-- Delete the file at `p`. -/
def fsRemove (fs : FS) (p : String) : FS :=
  fun q => if q = p then none else fs q

/-- `os.replace(src, dst)`: atomically rename `src` over `dst`, keeping the
file's contents and mode. -/
def osReplace (fs : FS) (src dst : String) : FS :=
  match fs src with
  | some r => fsRemove (fsWrite fs dst r) src
  | none => fs

/-- Mode bits of a file created by `open(..., "w")` under a given umask
(`0o666 &&& ~umask`); 438 = 0o666, 511 = 0o777. -/
def createMode (umask : Nat) : Nat := 438 &&& (511 ^^^ (umask &&& 511))

/-- `json.dump(tokens, f, indent=2)` followed by `f.write("\n")`: the
serialised document plus a trailing newline (indentation whitespace is
abstracted away; it does not affect the parsed value). -/
def serializeTokens (tokens : JVal) : String :=
  String.mk (serializeVal tokens ++ [Char.ofNat 10])

/-- `save_tokens` (lines 134-141): write `path + ".tmp"`, chmod it to 0600
(= 384), then atomically rename it over `path`. -/
def save_tokens (fs : FS) (tokens : JVal) (path : String) (umask : Nat) : FS :=
  let tmp := path ++ ".tmp"
  let fs1 := fsWrite fs tmp ⟨serializeTokens tokens, createMode umask⟩
  let fs2 := fsWrite fs1 tmp ⟨serializeTokens tokens, 384⟩
  osReplace fs2 tmp path

/-- The successive file-system states a concurrent reader can observe while
`save_tokens` runs: initial; tmp created empty; tmp partially written
(`chunk` stands for an arbitrary prefix of the bytes); tmp fully written;
tmp chmodded to 0600; after the atomic rename. -/
def saveTrace (fs : FS) (tokens : JVal) (path : String) (umask : Nat)
    (chunk : String) : List FS :=
  let tmp := path ++ ".tmp"
  let s1 := fsWrite fs tmp ⟨"", createMode umask⟩
  let s2 := fsWrite s1 tmp ⟨chunk, createMode umask⟩
  let s3 := fsWrite s2 tmp ⟨serializeTokens tokens, createMode umask⟩
  let s4 := fsWrite s3 tmp ⟨serializeTokens tokens, 384⟩
  [fs, s1, s2, s3, s4, osReplace s4 tmp path]

/-- `load_tokens` (lines 144-146): read the file and `json.load` it
(absent file or unparseable contents are error outcomes, here `none`). -/
def load_tokens (fs : FS) (path : String) : Option JVal :=
  match fs path with
  | some r => parseJson r.content
  | none => none

/-- The empty file system, used in witnesses. -/
def fs0 : FS := fun _ => none

/-! ### Token refresh (`refresh_with_rt`) and the CLI refresh action -/
/-- Body attached to a refresh failure: the parsed JSON body when the body
parses, else the raw text (the `except: body = resp.text` fallback). -/
inductive RefreshBody where
  | json (b : JVal)
  | raw (t : String)

/-- Result of `refresh_with_rt` (lines 149-175). -/
inductive RefreshResult where
  | ok (tokens : JVal)
  | refreshFailed (status : Nat) (body : RefreshBody)
  | jsonError

/-- `refresh_with_rt`: one POST, no retry; a non-200 status raises
`RuntimeError` carrying the status and the body; a 200 returns the parsed
JSON (an unparseable 200 body propagates the JSON decode error). -/
def refresh_with_rt (resp : HttpResp) : RefreshResult :=
  if resp.status ≠ 200 then
    match resp.body with
    | some b => .refreshFailed resp.status (.json b)
    | none => .refreshFailed resp.status (.raw resp.text)
  else
    match resp.body with
    | some b => .ok b
    | none => .jsonError

/-- The CLI `refresh --token` path (lines 344-374): call `refresh_with_rt`;
on success fall through to `save_tokens` and exit 0; on the exception reach
the top-level handler and exit 1 with the file system untouched.  `pending`
is the rest of the HTTP script: it is returned unconsumed, recording that no
further request (no retry) is issued. -/
def cli_refresh_token (fs : FS) (resp : HttpResp) (pending : List HttpResp)
    (path : String) (umask : Nat) : FS × Nat × List HttpResp :=
  match refresh_with_rt resp with
  | .ok tokens => (save_tokens fs tokens path umask, 0, pending)
  | _ => (fs, 1, pending)

/-- A known-bad refresh attempt: 400 with `{"error": "invalid_grant"}`. -/
def refreshBadResp : HttpResp :=
  ⟨400, some (.jobj (.ocons "error" (.jstr "invalid_grant") .onil)), ""⟩

/-! ### Token revocation (`revoke_token`) and the CLI revoke action -/
/-- `revoke_token` (lines 233-251): one POST to the revocation endpoint; the
function returns the raw response object unconditionally. -/
def revoke_token (resp : HttpResp) : HttpResp := resp

/-- The CLI revoke action (lines 325-342): derive success from
`resp.status_code == 200`; on success print and exit 0; otherwise report the
failure with the status and body text and exit 1.  `pending` is the rest of
the HTTP script, returned unconsumed (no retry). -/
def cli_revoke (resp : HttpResp) (pending : List HttpResp) :
    Bool × Nat × Option (Nat × String) × List HttpResp :=
  let r := revoke_token resp
  if r.status = 200 then (true, 0, none, pending)
  else (false, 1, some (r.status, r.text), pending)

/-! ### Step lemmas for the poll loop -/
theorem pollLoopAux_timeout {T e : Int} (h : e > T) (rs : List HttpResp)
    (i : Int) (c : Nat) : pollLoopAux T rs e i c = ⟨some .timeout, e, c, rs⟩ := by
  cases rs <;> rw [pollLoopAux] <;> simp [h]

theorem pollLoopAux_nil {T e : Int} (h : ¬ e > T) (i : Int) (c : Nat) :
    pollLoopAux T [] e i c = ⟨none, e, c, []⟩ := by
  rw [pollLoopAux]; simp [h]

theorem pollLoopAux_pending {T e : Int} (h : ¬ e > T) {r : HttpResp}
    (hr : isPendingResp r = true) (rest : List HttpResp) (i : Int) (c : Nat) :
    pollLoopAux T (r :: rest) e i c = pollLoopAux T rest (e + i) i (c + 1) := by
  obtain ⟨s, b, t⟩ := r
  unfold isPendingResp at hr
  simp only [Bool.and_eq_true, decide_eq_true_eq] at hr
  obtain ⟨hs, hb⟩ := hr
  rw [pollLoopAux]
  match b with
  | some (.jobj fields) =>
    simp only at hb hs ⊢
    match hjl : jlook "error" fields with
    | some (.jstr e2) =>
      rw [hjl] at hb
      simp only [decide_eq_true_eq] at hb
      simp [h, hs, hjl, hb]
    | some .jnull | some (.jbool _) | some (.jnum _) | some (.jarr _)
    | some (.jobj _) | none => (rw [hjl] at hb; simp at hb)

theorem pollLoopAux_slow_down {T e : Int} (h : ¬ e > T) {r : HttpResp}
    (hr : isSlowDownResp r = true) (rest : List HttpResp) (i : Int) (c : Nat) :
    pollLoopAux T (r :: rest) e i c =
      pollLoopAux T rest (e + slow_down_update i) (slow_down_update i) (c + 1) := by
  obtain ⟨s, b, t⟩ := r
  unfold isSlowDownResp at hr
  simp only [Bool.and_eq_true, decide_eq_true_eq] at hr
  obtain ⟨hs, hb⟩ := hr
  rw [pollLoopAux]
  match b with
  | some (.jobj fields) =>
    simp only at hb hs ⊢
    match hjl : jlook "error" fields with
    | some (.jstr e2) =>
      rw [hjl] at hb
      simp only [decide_eq_true_eq] at hb
      simp [h, hs, hjl, hb]
    | some .jnull | some (.jbool _) | some (.jnum _) | some (.jarr _)
    | some (.jobj _) | none => (rw [hjl] at hb; simp at hb)

theorem pollLoopAux_terminal {T e : Int} (h : ¬ e > T) {s : Nat} (hs : s ≠ 200)
    {fields : JObj} {err : String}
    (hj : jlook "error" fields = some (.jstr err))
    (hterm : err = "access_denied" ∨ err = "expired_token" ∨ err = "invalid_grant")
    (txt : String) (rest : List HttpResp) (i : Int) (c : Nat) :
    pollLoopAux T (⟨s, some (.jobj fields), txt⟩ :: rest) e i c =
      ⟨some (.rejected err fields), e, c + 1, rest⟩ := by
  rw [pollLoopAux]
  rcases hterm with h1 | h1 | h1 <;> subst h1 <;> simp [h, hs, hj]

theorem pollLoopAux_calls_le (T : Int) (rs : List HttpResp) : ∀ (e i : Int) (c : Nat),
    c ≤ (pollLoopAux T rs e i c).calls := by
  induction rs with
  | nil =>
    intro e i c
    rw [pollLoopAux]
    split <;> exact Nat.le_refl c
  | cons r rest ih =>
    intro e i c
    rw [pollLoopAux]
    repeat' split
    all_goals first
      | exact Nat.le_refl c
      | exact Nat.le_succ c
      | exact Nat.le_trans (Nat.le_succ c) (ih _ _ _)

/-! ### Claim C1 -/
/-- C1 counterexample: the loop can hold interval 40 (a server-suggested
initial interval of 40 passes through `max(5, ...)` unchanged), and a
`slow_down` response then updates the interval to `min(40+5, 30) = 30 < 40`:
the interval decreases, and the sleep the loop performs after that response
is 30 s, not ≥ 40 s.  This refutes "never decreases ... for any starting
interval the loop may hold (including a server-suggested initial interval
greater than 30)". -/
theorem c1_slow_down_counterexample :
    poll_init_interval 40 = 40 ∧
    slow_down_update 40 = 30 ∧
    slow_down_update 40 < 40 ∧
    (pollLoopAux 900 [slowDownResp] 0 (poll_init_interval 40) 0).elapsed = 30 := by
  refine ⟨by decide, by decide, by decide, rfl⟩

/-- C1 (amended): a `slow_down` response updates the current interval by
`min(interval + 5, 30)` (the update `pollLoopAux` applies); whenever the
current interval is at most 30 it never decreases, strictly increases while
below 30 — by exactly 5 as long as it is at most 25 — and stays capped at
30.  (An interval above 30, reachable only from a server-suggested initial
interval above 30, is instead clamped down to 30.) -/
theorem c1_amended_slow_down_backoff (i : Int) (h : i ≤ 30) :
    i ≤ slow_down_update i ∧
    (i < 30 → i < slow_down_update i) ∧
    (i ≤ 25 → slow_down_update i = i + 5) ∧
    slow_down_update i ≤ 30 := by
  unfold slow_down_update
  omega

/-- Witness for the amended C1 at interval 20. -/
theorem c1_amended_witness :
    (20 : Int) ≤ slow_down_update 20 ∧
    ((20 : Int) < 30 → (20 : Int) < slow_down_update 20) ∧
    ((20 : Int) ≤ 25 → slow_down_update 20 = 20 + 5) ∧
    slow_down_update 20 ≤ 30 :=
  c1_amended_slow_down_backoff 20 (by decide)

/-! ### Claim C2 -/
theorem poll_init_interval_eq_max (i : Int) : poll_init_interval i = max 5 i := by
  unfold poll_init_interval
  split <;> omega

/-- C2: the poll loop starts with `interval = max(5, server_suggested)` —
and 5 when the server supplies no `interval` field — and `run_device_flow`
enters it with the fixed 900-second policy budget, independently of the
provider's own device-code `expires_in`. -/
theorem c2_initial_interval_and_budget :
    (∀ i : Int, poll_init_interval i = max 5 i) ∧
    poll_init_interval (run_device_flow_interval none) = 5 ∧
    run_device_flow_timeout = 900 ∧
    (∀ si e1 e2 rs, run_device_flow_poll si e1 rs = run_device_flow_poll si e2 rs) ∧
    (∀ si e rs, run_device_flow_poll si e rs =
      pollLoopAux 900 rs 0 (max 5 (run_device_flow_interval si)) 0) := by
  refine ⟨poll_init_interval_eq_max, by decide, rfl, fun si e1 e2 rs => rfl, ?_⟩
  intro si e rs
  unfold run_device_flow_poll poll_token_endpoint run_device_flow_timeout
  rw [poll_init_interval_eq_max]

/-! ### Claim C4 -/
/-- C4: a poll response whose JSON `error` field is `access_denied`,
`expired_token` or `invalid_grant` terminates the loop at once with a
rejection carrying the provider error code and the raw parsed body; exactly
one HTTP call is made for it and the rest of the script is left untouched
(zero further HTTP calls). -/
theorem c4_terminal_error_stops_polling
    (rest : List HttpResp) (e i T : Int) (c s : Nat) (fields : JObj)
    (err txt : String)
    (hT : e ≤ T) (hs : s ≠ 200)
    (hj : jlook "error" fields = some (.jstr err))
    (hterm : err = "access_denied" ∨ err = "expired_token" ∨ err = "invalid_grant") :
    pollLoopAux T (⟨s, some (.jobj fields), txt⟩ :: rest) e i c =
      ⟨some (.rejected err fields), e, c + 1, rest⟩ :=
  pollLoopAux_terminal (by omega) hs hj hterm txt rest i c

/-- Witness for C4: an `access_denied` response arriving first, with two more
scripted responses behind it that are never requested. -/
theorem c4_witness :
    (0 : Int) ≤ 900 ∧ (400 : Nat) ≠ 200 ∧
    pollLoopAux 900 (deniedResp :: [pendingResp, pendingResp]) 0 5 0 =
      ⟨some (.rejected "access_denied" deniedBody), 0, 1, [pendingResp, pendingResp]⟩ :=
  ⟨by decide, by decide,
    c4_terminal_error_stops_polling [pendingResp, pendingResp] 0 5 900 0 400
      deniedBody "access_denied" "" (by decide) (by decide) rfl (Or.inl rfl)⟩

/-! ### Claim C9 -/
/-- C9: a poll response whose JSON `error` field is `authorization_pending`
makes the loop sleep the current interval and continue with the interval
unchanged. -/
theorem c9_pending_keeps_interval
    (rest : List HttpResp) (e i T : Int) (c s : Nat) (fields : JObj)
    (txt : String) (hT : e ≤ T) (hs : s ≠ 200)
    (hj : jlook "error" fields = some (.jstr "authorization_pending")) :
    pollLoopAux T (⟨s, some (.jobj fields), txt⟩ :: rest) e i c =
      pollLoopAux T rest (e + i) i (c + 1) :=
  pollLoopAux_pending (by omega)
    (by unfold isPendingResp; simp [hs, hj]) rest i c

/-- Witness for C9: one pending response then an empty script, at interval
7; the loop sleeps 7 s and polls again with interval still 7. -/
theorem c9_witness :
    (0 : Int) ≤ 900 ∧ (400 : Nat) ≠ 200 ∧
    pollLoopAux 900 [pendingResp] 0 7 0 = pollLoopAux 900 [] (0 + 7) 7 (0 + 1) :=
  ⟨by decide, by decide,
    c9_pending_keeps_interval [] 0 7 900 0 400
      (.ocons "error" (.jstr "authorization_pending") .onil) "" (by decide)
      (by decide) rfl⟩

/-! ### Claim C10 -/
/-- C10: with any non-negative `timeout_seconds` (0 included), a timeout can
only be raised after at least one HTTP POST: the elapsed-time check is a
strict `>` against a clock starting at loop entry, so it cannot fire on the
first iteration. -/
theorem c10_at_least_one_call_before_timeout
    (rs : List HttpResp) (i T : Int) (hT : 0 ≤ T)
    (hto : (pollLoopAux T rs 0 i 0).result = some .timeout) :
    1 ≤ (pollLoopAux T rs 0 i 0).calls := by
  cases rs with
  | nil =>
    rw [pollLoopAux_nil (by omega)] at hto
    simp at hto
  | cons r rest =>
    rw [pollLoopAux]
    rw [if_neg (by omega : ¬ (0 : Int) > T)]
    repeat' split
    all_goals first
      | exact Nat.le_refl 1
      | exact pollLoopAux_calls_le T rest _ _ 1

/-- Witness for C10: with `timeout_seconds = 0` the loop still issues one
POST (the pending response), sleeps, and only then times out. -/
theorem c10_witness :
    (0 : Int) ≤ 0 ∧
    (pollLoopAux 0 [pendingResp] 0 5 0).result = some .timeout ∧
    1 ≤ (pollLoopAux 0 [pendingResp] 0 5 0).calls :=
  ⟨by decide, rfl, c10_at_least_one_call_before_timeout [pendingResp] 5 0 (by decide) rfl⟩

/-! ### Claim C3 -/
theorem pollLoopAux_pending_timeout (T M : Int) (hM : 30 ≤ M)
    (rs : List HttpResp) :
    ∀ (e i : Int) (c : Nat),
      (∀ r ∈ rs, isPendingResp r = true ∨ isSlowDownResp r = true) →
      5 ≤ i → i ≤ M → e ≤ T →
      T < e + (pendingSleeps rs i).sum →
      (pollLoopAux T rs e i c).result = some .timeout ∧
      (pollLoopAux T rs e i c).elapsed ≤ T + M := by
  induction rs with
  | nil =>
    intro e i c _ _ _ heT hsum
    simp [pendingSleeps] at hsum
    exact absurd heT (by omega)
  | cons r rest ih =>
    intro e i c hall hi hiM heT hsum
    have hrest : ∀ x ∈ rest, isPendingResp x = true ∨ isSlowDownResp x = true :=
      fun x hx => hall x (List.mem_cons_of_mem _ hx)
    by_cases hp : isPendingResp r = true
    · rw [pollLoopAux_pending (by omega) hp]
      simp only [pendingSleeps, hp, if_pos, List.sum_cons] at hsum
      by_cases hnew : e + i > T
      · rw [pollLoopAux_timeout hnew]
        exact ⟨rfl, by simp only []; omega⟩
      · exact ih (e + i) i (c + 1) hrest hi hiM (by omega) (by omega)
    · have hsd : isSlowDownResp r = true := (hall r (List.mem_cons_self r rest)).resolve_left hp
      have hp2 : isPendingResp r = false := Bool.not_eq_true _ ▸ hp
      have hi2 : 5 ≤ slow_down_update i := by unfold slow_down_update; omega
      have hi2M : slow_down_update i ≤ M := by unfold slow_down_update; omega
      rw [pollLoopAux_slow_down (by omega) hsd]
      simp [pendingSleeps, hp2, hsd] at hsum
      by_cases hnew : e + slow_down_update i > T
      · rw [pollLoopAux_timeout hnew]
        refine ⟨rfl, ?_⟩
        simp only []
        omega
      · exact ih (e + slow_down_update i) (slow_down_update i) (c + 1) hrest hi2 hi2M
          (by omega) (by omega)

/-- C3: for an overall budget of `T ≥ 0` seconds and any script of
pending/slow_down responses whose sleep durations sum past `T`, the loop
terminates by raising the timeout error, and the elapsed time at that point
exceeds `T` by at most one interval's slack (every slept interval is at most
`max i 30`), because the timeout check runs at the top of each iteration
before the next HTTP call. -/
theorem c3_timeout_within_one_interval
    (rs : List HttpResp) (i T : Int)
    (hall : ∀ r ∈ rs, isPendingResp r = true ∨ isSlowDownResp r = true)
    (hi : 5 ≤ i) (hT : 0 ≤ T)
    (hsum : T < (pendingSleeps rs i).sum) :
    (pollLoopAux T rs 0 i 0).result = some .timeout ∧
    (pollLoopAux T rs 0 i 0).elapsed ≤ T + max i 30 := by
  refine pollLoopAux_pending_timeout T (max i 30) (le_max_right i 30) rs 0 i 0
    hall hi (le_max_left i 30) hT (by omega)

/-- Witness for C3: three pending responses at interval 5 against a
12-second budget; the sleeps sum to 15 > 12, the loop times out with 15
seconds elapsed, within one interval of the budget. -/
theorem c3_witness :
    (∀ r ∈ [pendingResp, pendingResp, pendingResp],
      isPendingResp r = true ∨ isSlowDownResp r = true) ∧
    (12 : Int) < (pendingSleeps [pendingResp, pendingResp, pendingResp] 5).sum ∧
    (pollLoopAux 12 [pendingResp, pendingResp, pendingResp] 0 5 0).result
      = some .timeout ∧
    (pollLoopAux 12 [pendingResp, pendingResp, pendingResp] 0 5 0).elapsed
      ≤ 12 + max 5 30 := by
  have h := c3_timeout_within_one_interval [pendingResp, pendingResp, pendingResp]
    5 12 (by decide) (by decide) (by decide) (by decide)
  exact ⟨by decide, by decide, h.1, h.2⟩

theorem hexVal_hexDigitChar : ∀ d : Nat, d < 16 → hexVal (hexDigitChar d) = some d := by
  decide

theorem decDigitChar_digit : ∀ d : Nat, d < 10 → isDigitCh (decDigitChar d) = true := by
  decide

theorem digitVal_decDigitChar : ∀ d : Nat, d < 10 → digitVal (decDigitChar d) = d := by
  decide

theorem natChars_ne_nil (n : Nat) : natChars n ≠ [] := by
  unfold natChars
  split
  · simp
  · simp only [ne_eq, List.map_eq_nil_iff, List.reverse_eq_nil_iff]
    exact Nat.digits_ne_nil_iff_ne_zero.mpr (by assumption)

theorem natChars_all_digit {n : Nat} : ∀ c ∈ natChars n, isDigitCh c = true := by
  intro c hc
  unfold natChars at hc
  split at hc
  · simp only [List.mem_singleton] at hc
    subst hc
    decide
  · simp only [List.mem_map, List.mem_reverse] at hc
    obtain ⟨d, hd, rfl⟩ := hc
    exact decDigitChar_digit d (Nat.digits_lt_base (by norm_num) hd)

theorem parseNatAux_run (ds : List Nat) : ∀ (rest : List Char) (acc : Nat),
    (∀ d ∈ ds, d < 10) → headNotDigit rest = true →
    parseNatAux ((ds.map decDigitChar) ++ rest) acc =
      (ds.foldl (fun a d => 10 * a + d) acc, rest) := by
  induction ds with
  | nil =>
    intro rest acc _ hrest
    cases rest with
    | nil => rfl
    | cons c cs =>
      simp only [headNotDigit, Bool.not_eq_true'] at hrest
      simp [parseNatAux, hrest]
  | cons d ds ih =>
    intro rest acc hds hrest
    have hd : d < 10 := hds d (List.mem_cons_self d ds)
    simp only [List.map_cons, List.cons_append]
    rw [parseNatAux, if_pos (decDigitChar_digit d hd), digitVal_decDigitChar d hd]
    rw [ih rest _ (fun x hx => hds x (List.mem_cons_of_mem _ hx)) hrest]
    simp

theorem foldl_reverse_ofDigits (l : List Nat) : ∀ acc : Nat,
    l.reverse.foldl (fun a d => 10 * a + d) acc =
      acc * 10 ^ l.length + Nat.ofDigits 10 l := by
  induction l with
  | nil => intro acc; simp [Nat.ofDigits_nil]
  | cons d l ih =>
    intro acc
    rw [List.reverse_cons, List.foldl_append]
    simp only [List.foldl_cons, List.foldl_nil]
    rw [ih, Nat.ofDigits_cons, List.length_cons, pow_succ]
    ring

theorem parsePosNat_natChars (n : Nat) (rest : List Char)
    (hrest : headNotDigit rest = true) :
    parsePosNat (natChars n ++ rest) = some (n, rest) := by
  by_cases h0 : n = 0
  · subst h0
    have h1 : natChars 0 = ['0'] := rfl
    rw [h1, List.singleton_append, parsePosNat, if_pos (by decide)]
    have h2 := parseNatAux_run [] rest 0 (by simp) hrest
    simp only [List.map_nil, List.nil_append, List.foldl_nil] at h2
    have h3 : digitVal '0' = 0 := by decide
    rw [h3, h2]
  · unfold natChars
    rw [if_neg h0]
    have hL : (Nat.digits 10 n).reverse ≠ [] := by
      simp only [ne_eq, List.reverse_eq_nil_iff]
      exact Nat.digits_ne_nil_iff_ne_zero.mpr h0
    obtain ⟨d, ds, hcons⟩ := List.exists_cons_of_ne_nil hL
    have hall : ∀ x ∈ (Nat.digits 10 n).reverse, x < 10 := fun x hx =>
      Nat.digits_lt_base (by norm_num) (List.mem_reverse.mp hx)
    have hd : d < 10 := hall d (hcons ▸ List.mem_cons_self d ds)
    rw [hcons]
    simp only [List.map_cons, List.cons_append]
    rw [parsePosNat, if_pos (decDigitChar_digit d hd), digitVal_decDigitChar d hd]
    rw [parseNatAux_run ds rest d
      (fun x hx => hall x (hcons ▸ List.mem_cons_of_mem d hx)) hrest]
    have hfold : ds.foldl (fun a x => 10 * a + x) d =
        (Nat.digits 10 n).reverse.foldl (fun a x => 10 * a + x) 0 := by
      rw [hcons]
      simp
    rw [hfold, foldl_reverse_ofDigits, Nat.ofDigits_digits]
    simp

/-! ### Round-trip: string literals -/
theorem escChar_ne_nil (c : Char) : escChar c ≠ [] := by
  unfold escChar
  split_ifs <;> simp

theorem length_le_flatten_escChar (cs : List Char) :
    cs.length ≤ ((cs.map escChar).flatten).length := by
  induction cs with
  | nil => simp
  | cons c cs ih =>
    simp only [List.map_cons, List.flatten_cons, List.length_append, List.length_cons]
    have h1 : 0 < (escChar c).length := List.length_pos.mpr (escChar_ne_nil c)
    omega

theorem parseStrLit_plain (fu : Nat) {c : Char} (hq : c ≠ quoteChar)
    (hb : c ≠ backslashChar) (cs2 : List Char) :
    parseStrLit (fu + 1) (c :: cs2) = consCh c (parseStrLit fu cs2) := by
  show (if c = quoteChar then some ([], cs2)
    else if c = backslashChar then
      match cs2 with
      | [] => none
      | e :: cs3 =>
        if e = 'u' then
          match parseHex4 cs3 with
          | some (n, cs4) => consCh (Char.ofNat n) (parseStrLit fu cs4)
          | none => none
        else
          match parseEscCh e with
          | some d => consCh d (parseStrLit fu cs3)
          | none => none
    else consCh c (parseStrLit fu cs2)) = consCh c (parseStrLit fu cs2)
  rw [if_neg hq, if_neg hb]

theorem parseStrLit_u (fu : Nat) (h1 h2 h3 h4 : Char) (cs4 : List Char)
    {v1 v2 v3 v4 : Nat}
    (e1 : hexVal h1 = some v1) (e2 : hexVal h2 = some v2)
    (e3 : hexVal h3 = some v3) (e4 : hexVal h4 = some v4) :
    parseStrLit (fu + 1) (backslashChar :: 'u' :: h1 :: h2 :: h3 :: h4 :: cs4) =
      consCh (Char.ofNat (4096 * v1 + 256 * v2 + 16 * v3 + v4)) (parseStrLit fu cs4) := by
  have h5 : parseHex4 (h1 :: h2 :: h3 :: h4 :: cs4) =
      some (4096 * v1 + 256 * v2 + 16 * v3 + v4, cs4) := by
    have h0 : parseHex4 (h1 :: h2 :: h3 :: h4 :: cs4) =
        match hexVal h1, hexVal h2, hexVal h3, hexVal h4 with
        | some w1, some w2, some w3, some w4 =>
          some (4096 * w1 + 256 * w2 + 16 * w3 + w4, cs4)
        | _, _, _, _ => none := rfl
    rw [h0]
    simp only [e1, e2, e3, e4]
  show (match parseHex4 (h1 :: h2 :: h3 :: h4 :: cs4) with
    | some (n, cs5) => consCh (Char.ofNat n) (parseStrLit fu cs5)
    | none => none) = _
  rw [h5]

theorem parseStrLit_escChar (fu : Nat) (c : Char) (tail : List Char) :
    parseStrLit (fu + 1) (escChar c ++ tail) = consCh c (parseStrLit fu tail) := by
  unfold escChar
  split_ifs with h1 h2 h3 h4 h5 h6 h7 h8
  · subst h1; rfl
  · subst h2; rfl
  · subst h3; rfl
  · subst h4; rfl
  · subst h5; rfl
  · subst h6; rfl
  · subst h7; rfl
  · have d1 : c.toNat / 16 < 16 := by omega
    have d2 : c.toNat % 16 < 16 := Nat.mod_lt _ (by norm_num)
    have step := parseStrLit_u fu '0' '0'
      (hexDigitChar (c.toNat / 16)) (hexDigitChar (c.toNat % 16)) tail
      (show hexVal '0' = some 0 by decide) (show hexVal '0' = some 0 by decide)
      (hexVal_hexDigitChar _ d1) (hexVal_hexDigitChar _ d2)
    show parseStrLit (fu + 1) (backslashChar :: 'u' :: '0' :: '0' ::
      hexDigitChar (c.toNat / 16) :: hexDigitChar (c.toNat % 16) :: tail) = _
    rw [step]
    have harith : 4096 * 0 + 256 * 0 + 16 * (c.toNat / 16) + c.toNat % 16 = c.toNat := by
      omega
    rw [harith, Char.ofNat_toNat]
  · exact parseStrLit_plain fu h1 h2 tail

theorem parseStrLit_rt (cs : List Char) : ∀ (fu : Nat) (tail : List Char),
    cs.length < fu →
    parseStrLit fu ((cs.map escChar).flatten ++ quoteChar :: tail) = some (cs, tail) := by
  induction cs with
  | nil =>
    intro fu tail hfu
    obtain ⟨fu2, rfl⟩ : ∃ fu2, fu = fu2 + 1 := ⟨fu - 1, by omega⟩
    simp only [List.map_nil, List.flatten_nil, List.nil_append]
    rfl
  | cons c cs ih =>
    intro fu tail hfu
    obtain ⟨fu2, rfl⟩ : ∃ fu2, fu = fu2 + 1 := ⟨fu - 1, by omega⟩
    simp only [List.map_cons, List.flatten_cons, List.append_assoc]
    rw [parseStrLit_escChar fu2 c _]
    rw [ih fu2 tail (by simp only [List.length_cons] at hfu; omega)]
    rfl

theorem sVal_null : serializeVal .jnull = ['n', 'u', 'l', 'l'] := by
  simp [serializeVal]

theorem sVal_true : serializeVal (.jbool true) = ['t', 'r', 'u', 'e'] := by
  simp [serializeVal]

theorem sVal_false : serializeVal (.jbool false) = ['f', 'a', 'l', 's', 'e'] := by
  simp [serializeVal]

theorem sVal_num (n : Int) : serializeVal (.jnum n) = intChars n := by
  simp [serializeVal]

theorem sVal_str (s : String) : serializeVal (.jstr s) = serializeStrChars s := by
  simp [serializeVal]

theorem sVal_arr_nil : serializeVal (.jarr .anil) = ['[', ']'] := by
  simp [serializeVal]

theorem sVal_arr_cons (v : JVal) (r : JArr) :
    serializeVal (.jarr (.acons v r)) =
      '[' :: (serializeVal v ++ (serializeArrTail r ++ [']'])) := by
  simp [serializeVal]

theorem sVal_obj_nil : serializeVal (.jobj .onil) = [lbraceChar, rbraceChar] := by
  simp [serializeVal]

theorem sVal_obj_cons (k : String) (v : JVal) (r : JObj) :
    serializeVal (.jobj (.ocons k v r)) =
      lbraceChar :: (serializeStrChars k ++ (':' :: (serializeVal v ++
        (serializeObjTail r ++ [rbraceChar])))) := by
  simp [serializeVal]

theorem sArrT_nil : serializeArrTail .anil = [] := by
  simp [serializeArrTail]

theorem sArrT_cons (v : JVal) (r : JArr) :
    serializeArrTail (.acons v r) = ',' :: (serializeVal v ++ serializeArrTail r) := by
  simp [serializeArrTail]

theorem sObjT_nil : serializeObjTail .onil = [] := by
  simp [serializeObjTail]

theorem sObjT_cons (k : String) (v : JVal) (r : JObj) :
    serializeObjTail (.ocons k v r) =
      ',' :: (serializeStrChars k ++ (':' :: (serializeVal v ++ serializeObjTail r))) := by
  simp [serializeObjTail]

theorem serializeVal_head (v : JVal) :
    ∃ c tl, serializeVal v = c :: tl ∧ c ≠ ']' := by
  cases v with
  | jnull => exact ⟨'n', _, sVal_null, by decide⟩
  | jbool b =>
    cases b
    · exact ⟨'f', _, sVal_false, by decide⟩
    · exact ⟨'t', _, sVal_true, by decide⟩
  | jnum n =>
    rw [sVal_num]
    unfold intChars
    split
    · exact ⟨'-', _, rfl, by decide⟩
    · obtain ⟨d, ds, h⟩ := List.exists_cons_of_ne_nil (natChars_ne_nil n.natAbs)
      refine ⟨d, ds, h, fun hEq => ?_⟩
      have hdig : isDigitCh d = true :=
        natChars_all_digit d (h ▸ List.mem_cons_self d ds)
      subst hEq
      exact absurd hdig (by decide)
  | jstr s => exact ⟨quoteChar, _, sVal_str s, by decide⟩
  | jarr a =>
    cases a with
    | anil => exact ⟨'[', _, sVal_arr_nil, by decide⟩
    | acons v r => exact ⟨'[', _, sVal_arr_cons v r, by decide⟩
  | jobj o =>
    cases o with
    | onil => exact ⟨lbraceChar, _, sVal_obj_nil, by decide⟩
    | ocons k v r => exact ⟨lbraceChar, _, sVal_obj_cons k v r, by decide⟩

theorem serializeVal_length_pos (v : JVal) : 0 < (serializeVal v).length := by
  obtain ⟨c, tl, h, _⟩ := serializeVal_head v
  rw [h]
  simp

theorem serializeArrTail_headNotDigit (a : JArr) (r : List Char) :
    headNotDigit (serializeArrTail a ++ ']' :: r) = true := by
  cases a with
  | anil => rw [sArrT_nil, List.nil_append]; rfl
  | acons v rest => rw [sArrT_cons, List.cons_append]; rfl

theorem serializeObjTail_headNotDigit (o : JObj) (r : List Char) :
    headNotDigit (serializeObjTail o ++ rbraceChar :: r) = true := by
  cases o with
  | onil => rw [sObjT_nil, List.nil_append]; rfl
  | ocons k v rest => rw [sObjT_cons, List.cons_append]; rfl

mutual
theorem sizeV_le_length (v : JVal) : sizeV v ≤ (serializeVal v).length := by
  cases v with
  | jnull => rw [sVal_null]; simp [sizeV]
  | jbool b => cases b <;> simp [sizeV, sVal_true, sVal_false]
  | jnum n =>
    rw [sVal_num]
    have h : 0 < (intChars n).length := by
      unfold intChars
      split
      · simp
      · exact List.length_pos.mpr (natChars_ne_nil _)
    simp only [sizeV]
    omega
  | jstr s =>
    rw [sVal_str]
    simp only [sizeV, serializeStrChars, List.cons_append, List.length_cons]
    omega
  | jarr a =>
    cases a with
    | anil => rw [sVal_arr_nil]; simp [sizeV, sizeA]
    | acons v r =>
      rw [sVal_arr_cons]
      have h1 := sizeV_le_length v
      have h2 := sizeA_le_length r
      have h3 := serializeVal_length_pos v
      have hmax : max (sizeV v) (sizeA r) ≤
          (serializeVal v).length + (serializeArrTail r).length :=
        Nat.max_le.mpr ⟨by omega, by omega⟩
      simp only [sizeV, sizeA, List.length_cons, List.length_append,
        List.length_singleton]
      omega
  | jobj o =>
    cases o with
    | onil => rw [sVal_obj_nil]; simp [sizeV, sizeO]
    | ocons k v r =>
      rw [sVal_obj_cons]
      have h1 := sizeV_le_length v
      have h2 := sizeO_le_length r
      have h3 := serializeVal_length_pos v
      have hmax : max (sizeV v) (sizeO r) ≤
          (serializeVal v).length + (serializeObjTail r).length :=
        Nat.max_le.mpr ⟨by omega, by omega⟩
      simp only [sizeV, sizeO, List.cons_append, List.length_cons,
        List.length_append, List.length_singleton]
      omega
theorem sizeA_le_length (a : JArr) : sizeA a ≤ (serializeArrTail a).length + 1 := by
  cases a with
  | anil => rw [sArrT_nil]; simp [sizeA]
  | acons v r =>
    rw [sArrT_cons]
    have h1 := sizeV_le_length v
    have h2 := sizeA_le_length r
    have h3 := serializeVal_length_pos v
    have hmax : max (sizeV v) (sizeA r) ≤
        (serializeVal v).length + (serializeArrTail r).length :=
      Nat.max_le.mpr ⟨by omega, by omega⟩
    simp only [sizeA, List.length_cons, List.length_append]
    omega
theorem sizeO_le_length (o : JObj) : sizeO o ≤ (serializeObjTail o).length + 1 := by
  cases o with
  | onil => rw [sObjT_nil]; simp [sizeO]
  | ocons k v r =>
    rw [sObjT_cons]
    have h1 := sizeV_le_length v
    have h2 := sizeO_le_length r
    have h3 := serializeVal_length_pos v
    have hmax : max (sizeV v) (sizeO r) ≤
        (serializeVal v).length + (serializeObjTail r).length :=
      Nat.max_le.mpr ⟨by omega, by omega⟩
    simp only [sizeO, List.cons_append, List.length_cons, List.length_append]
    omega
end

/-! ### Round-trip: parser step lemmas -/
theorem digit_not_keyword {c : Char} (hd : isDigitCh c = true) :
    c ≠ 'n' ∧ c ≠ 't' ∧ c ≠ 'f' ∧ c ≠ quoteChar ∧ c ≠ '-' ∧ c ≠ '[' ∧
      c ≠ lbraceChar := by
  unfold isDigitCh at hd
  simp only [Bool.and_eq_true, decide_eq_true_eq] at hd
  obtain ⟨h1, h2⟩ := hd
  refine ⟨?_, ?_, ?_, ?_, ?_, ?_, ?_⟩ <;>
    (intro h; subst h; first | exact absurd h1 (by decide) | exact absurd h2 (by decide))

theorem parseVal_quote (fu : Nat) (cs : List Char) :
    parseVal (fu + 1) (quoteChar :: cs) =
      match parseStrLit (cs.length + 1) cs with
      | some (out, rest2) => some (.jstr (String.mk out), rest2)
      | none => none := rfl

theorem parseVal_minus (fu : Nat) (cs : List Char) :
    parseVal (fu + 1) ('-' :: cs) =
      match parsePosNat cs with
      | some (n, rest2) => some (.jnum (-(n : Int)), rest2)
      | none => none := rfl

theorem parseVal_num (fu : Nat) {c : Char} (hd : isDigitCh c = true) (rest : List Char) :
    parseVal (fu + 1) (c :: rest) =
      match parsePosNat (c :: rest) with
      | some (n, rest2) => some (.jnum ((n : Nat) : Int), rest2)
      | none => none := by
  obtain ⟨hn, ht, hf, hq, hm, hbk, hbc⟩ := digit_not_keyword hd
  simp only [parseVal]
  rw [if_neg hn, if_neg ht, if_neg hf, if_neg hq, if_neg hm, if_pos hd]

theorem parseVal_lbracket_cons (fu : Nat) {c2 : Char} (h : c2 ≠ ']') (rest2 : List Char) :
    parseVal (fu + 1) ('[' :: c2 :: rest2) =
      match parseVal fu (c2 :: rest2) with
      | some (v, rest3) =>
        match parseArrRest fu rest3 with
        | some (a, rest4) => some (.jarr (.acons v a), rest4)
        | none => none
      | none => none := by
  have h0 : parseVal (fu + 1) ('[' :: c2 :: rest2) =
      if c2 = ']' then some (.jarr .anil, rest2) else
      match parseVal fu (c2 :: rest2) with
      | some (v, rest3) =>
        match parseArrRest fu rest3 with
        | some (a, rest4) => some (.jarr (.acons v a), rest4)
        | none => none
      | none => none := rfl
  rw [h0, if_neg h]

theorem parseVal_lbrace_quote (fu : Nat) (rest2 : List Char) :
    parseVal (fu + 1) (lbraceChar :: quoteChar :: rest2) =
      match parseStrLit (rest2.length + 1) rest2 with
      | some (key, rest3) =>
        match rest3 with
        | ':' :: rest4 =>
          match parseVal fu rest4 with
          | some (v, rest5) =>
            match parseObjRest fu rest5 with
            | some (o, rest6) => some (.jobj (.ocons (String.mk key) v o), rest6)
            | none => none
          | none => none
        | _ => none
      | none => none := rfl

theorem parseArrRest_comma (fu : Nat) (cs : List Char) :
    parseArrRest (fu + 1) (',' :: cs) =
      match parseVal fu cs with
      | some (v, rest2) =>
        match parseArrRest fu rest2 with
        | some (a, rest3) => some (.acons v a, rest3)
        | none => none
      | none => none := rfl

theorem parseObjRest_comma (fu : Nat) (rest2 : List Char) :
    parseObjRest (fu + 1) (',' :: quoteChar :: rest2) =
      match parseStrLit (rest2.length + 1) rest2 with
      | some (key, rest3) =>
        match rest3 with
        | ':' :: rest4 =>
          match parseVal fu rest4 with
          | some (v, rest5) =>
            match parseObjRest fu rest5 with
            | some (o, rest6) => some (.ocons (String.mk key) v o, rest6)
            | none => none
          | none => none
        | _ => none
      | none => none := rfl

/-! ### Round-trip: main induction over the parser fuel -/
theorem parse_rt : ∀ fu : Nat,
    (∀ (v : JVal) (rest : List Char), sizeV v < fu → headNotDigit rest = true →
      parseVal fu (serializeVal v ++ rest) = some (v, rest)) ∧
    (∀ (a : JArr) (rest : List Char), sizeA a < fu →
      parseArrRest fu (serializeArrTail a ++ ']' :: rest) = some (a, rest)) ∧
    (∀ (o : JObj) (rest : List Char), sizeO o < fu →
      parseObjRest fu (serializeObjTail o ++ rbraceChar :: rest) = some (o, rest)) := by
  intro fu
  induction fu with
  | zero =>
    exact ⟨fun v rest h _ => absurd h (Nat.not_lt_zero _),
           fun a rest h => absurd h (Nat.not_lt_zero _),
           fun o rest h => absurd h (Nat.not_lt_zero _)⟩
  | succ fu ih =>
    obtain ⟨ihv, iha, iho⟩ := ih
    refine ⟨?_, ?_, ?_⟩
    · intro v rest hsz hrest
      cases v with
      | jnull => rw [sVal_null]; rfl
      | jbool b =>
        cases b
        · rw [sVal_false]; rfl
        · rw [sVal_true]; rfl
      | jnum n =>
        rw [sVal_num]
        unfold intChars
        split
        next hneg =>
          rw [List.cons_append, parseVal_minus,
            parsePosNat_natChars n.natAbs rest hrest]
          have hcast : -((n.natAbs : Nat) : Int) = n := by omega
          show some (JVal.jnum (-((n.natAbs : Nat) : Int)), rest) = _
          rw [hcast]
        next hpos =>
          obtain ⟨d, ds, hds⟩ := List.exists_cons_of_ne_nil (natChars_ne_nil n.natAbs)
          have hdig : isDigitCh d = true :=
            natChars_all_digit d (hds ▸ List.mem_cons_self d ds)
          rw [hds, List.cons_append, parseVal_num fu hdig, ← List.cons_append, ← hds,
            parsePosNat_natChars n.natAbs rest hrest]
          have hcast : ((n.natAbs : Nat) : Int) = n := by omega
          show some (JVal.jnum ((n.natAbs : Nat) : Int), rest) = _
          rw [hcast]
      | jstr s =>
        rw [sVal_str]
        unfold serializeStrChars
        have hre : ((quoteChar :: (s.data.map escChar).flatten) ++ [quoteChar]) ++ rest
            = quoteChar :: ((s.data.map escChar).flatten ++ quoteChar :: rest) := by
          simp
        rw [hre]
        have hlen : s.data.length <
            ((s.data.map escChar).flatten ++ quoteChar :: rest).length + 1 := by
          have := length_le_flatten_escChar s.data
          simp only [List.length_append, List.length_cons]
          omega
        rw [parseVal_quote, parseStrLit_rt s.data _ rest hlen]
      | jarr a =>
        cases a with
        | anil => rw [sVal_arr_nil]; rfl
        | acons v r =>
          rw [sVal_arr_cons]
          have hre : ('[' :: (serializeVal v ++ (serializeArrTail r ++ [']']))) ++ rest
              = '[' :: (serializeVal v ++ (serializeArrTail r ++ ']' :: rest)) := by
            simp
          rw [hre]
          simp only [sizeV, sizeA] at hsz
          have hm1 := Nat.le_max_left (sizeV v) (sizeA r)
          have hm2 := Nat.le_max_right (sizeV v) (sizeA r)
          have hszv : sizeV v < fu := by omega
          have hszr : sizeA r < fu := by omega
          obtain ⟨c2, tl, hser, hne⟩ := serializeVal_head v
          rw [hser, List.cons_append, parseVal_lbracket_cons fu hne,
            ← List.cons_append, ← hser]
          simp only [ihv v _ hszv (serializeArrTail_headNotDigit r rest),
            iha r rest hszr]
      | jobj o =>
        cases o with
        | onil => rw [sVal_obj_nil]; rfl
        | ocons k v r =>
          rw [sVal_obj_cons]
          unfold serializeStrChars
          have hre : (lbraceChar :: ((quoteChar :: (k.data.map escChar).flatten ++ [quoteChar]) ++
              (':' :: (serializeVal v ++ (serializeObjTail r ++ [rbraceChar]))))) ++ rest
              = lbraceChar :: quoteChar :: ((k.data.map escChar).flatten ++
                quoteChar :: ':' :: (serializeVal v ++ (serializeObjTail r ++ rbraceChar :: rest))) := by
            simp
          rw [hre]
          simp only [sizeV, sizeO] at hsz
          have hm1 := Nat.le_max_left (sizeV v) (sizeO r)
          have hm2 := Nat.le_max_right (sizeV v) (sizeO r)
          have hszv : sizeV v < fu := by omega
          have hszr : sizeO r < fu := by omega
          have hlen : k.data.length <
              ((k.data.map escChar).flatten ++
                quoteChar :: ':' :: (serializeVal v ++
                  (serializeObjTail r ++ rbraceChar :: rest))).length + 1 := by
            have := length_le_flatten_escChar k.data
            simp only [List.length_append, List.length_cons]
            omega
          rw [parseVal_lbrace_quote, parseStrLit_rt k.data _ _ hlen]
          simp only [ihv v _ hszv (serializeObjTail_headNotDigit r rest),
            iho r rest hszr]
    · intro a rest hsz
      cases a with
      | anil => rw [sArrT_nil, List.nil_append]; rfl
      | acons v r =>
        rw [sArrT_cons]
        have hre : (',' :: (serializeVal v ++ serializeArrTail r)) ++ ']' :: rest
            = ',' :: (serializeVal v ++ (serializeArrTail r ++ ']' :: rest)) := by
          simp
        rw [hre]
        simp only [sizeA] at hsz
        have hm1 := Nat.le_max_left (sizeV v) (sizeA r)
        have hm2 := Nat.le_max_right (sizeV v) (sizeA r)
        have hszv : sizeV v < fu := by omega
        have hszr : sizeA r < fu := by omega
        rw [parseArrRest_comma]
        simp only [ihv v _ hszv (serializeArrTail_headNotDigit r rest),
          iha r rest hszr]
    · intro o rest hsz
      cases o with
      | onil => rw [sObjT_nil, List.nil_append]; rfl
      | ocons k v r =>
        rw [sObjT_cons]
        unfold serializeStrChars
        have hre : (',' :: ((quoteChar :: (k.data.map escChar).flatten ++ [quoteChar]) ++
            (':' :: (serializeVal v ++ serializeObjTail r)))) ++ rbraceChar :: rest
            = ',' :: quoteChar :: ((k.data.map escChar).flatten ++
              quoteChar :: ':' :: (serializeVal v ++ (serializeObjTail r ++ rbraceChar :: rest))) := by
          simp
        rw [hre]
        simp only [sizeO] at hsz
        have hm1 := Nat.le_max_left (sizeV v) (sizeO r)
        have hm2 := Nat.le_max_right (sizeV v) (sizeO r)
        have hszv : sizeV v < fu := by omega
        have hszr : sizeO r < fu := by omega
        have hlen : k.data.length <
            ((k.data.map escChar).flatten ++
              quoteChar :: ':' :: (serializeVal v ++
                (serializeObjTail r ++ rbraceChar :: rest))).length + 1 := by
          have := length_le_flatten_escChar k.data
          simp only [List.length_append, List.length_cons]
          omega
        rw [parseObjRest_comma, parseStrLit_rt k.data _ _ hlen]
        simp only [ihv v _ hszv (serializeObjTail_headNotDigit r rest),
          iho r rest hszr]

theorem parseJson_serializeVal (v : JVal) :
    parseJson (String.mk (serializeVal v ++ [Char.ofNat 10])) = some v := by
  have hsz : sizeV v < (serializeVal v ++ [Char.ofNat 10]).length + 1 := by
    have := sizeV_le_length v
    simp only [List.length_append, List.length_singleton]
    omega
  have hrt := (parse_rt ((serializeVal v ++ [Char.ofNat 10]).length + 1)).1 v
    [Char.ofNat 10] hsz (by decide)
  unfold parseJson
  simp only [hrt]
  rw [if_pos (show skipWs [Char.ofNat 10] = ([] : List Char) from rfl)]

theorem tmp_ne_path (path : String) : path ++ ".tmp" ≠ path := by
  intro h
  have h2 : (path ++ ".tmp").length = path.length + 4 := by
    rw [String.length_append]
    rfl
  rw [h] at h2
  omega

theorem fsWrite_same (fs : FS) (p : String) (r : FileRec) :
    fsWrite fs p r p = some r := by
  unfold fsWrite
  simp

theorem fsWrite_other (fs : FS) {p q : String} (h : q ≠ p) (r : FileRec) :
    fsWrite fs p r q = fs q := by
  unfold fsWrite
  simp [h]

theorem fsRemove_other (fs : FS) {p q : String} (h : q ≠ p) :
    fsRemove fs p q = fs q := by
  unfold fsRemove
  simp [h]

theorem osReplace_target (fs : FS) {tmp path : String} (hne : path ≠ tmp)
    (r : FileRec) (h : fs tmp = some r) : osReplace fs tmp path path = some r := by
  unfold osReplace
  simp only [h]
  rw [fsRemove_other _ hne, fsWrite_same]

theorem save_tokens_target (fs : FS) (tokens : JVal) (path : String) (umask : Nat) :
    save_tokens fs tokens path umask path = some ⟨serializeTokens tokens, 384⟩ :=
  osReplace_target _ (Ne.symm (tmp_ne_path path)) _ (fsWrite_same _ _ _)

/-! ### Claim C5 -/
/-- C5: during a `save_tokens` run, a reader of the target path sees either
the old file (unchanged) or the complete new serialisation with mode 0600 —
never a partial or differently-permissioned file — because all writing
happens at `path + ".tmp"` (a distinct path) and the target is only touched
by the final atomic rename of the chmodded temporary; afterwards the target
holds the full contents with permission bits granting nothing to group or
other (384 &&& 63 = 0, i.e. 0600 &&& 0077 = 0). -/
theorem c5_save_atomic_owner_only
    (fs : FS) (tokens : JVal) (path : String) (umask : Nat) (chunk : String) :
    (∀ s ∈ saveTrace fs tokens path umask chunk,
      s path = fs path ∨ s path = some ⟨serializeTokens tokens, 384⟩) ∧
    save_tokens fs tokens path umask path = some ⟨serializeTokens tokens, 384⟩ ∧
    384 &&& 63 = 0 := by
  have hne : path ≠ path ++ ".tmp" := Ne.symm (tmp_ne_path path)
  refine ⟨?_, save_tokens_target fs tokens path umask, by decide⟩
  intro s hs
  simp only [saveTrace, List.mem_cons, List.not_mem_nil, or_false] at hs
  rcases hs with rfl | rfl | rfl | rfl | rfl | rfl
  · left; rfl
  · left
    exact fsWrite_other fs hne _
  · left
    rw [fsWrite_other _ hne, fsWrite_other _ hne]
  · left
    rw [fsWrite_other _ hne, fsWrite_other _ hne, fsWrite_other _ hne]
  · left
    rw [fsWrite_other _ hne, fsWrite_other _ hne, fsWrite_other _ hne,
      fsWrite_other _ hne]
  · right
    exact osReplace_target _ hne _ (fsWrite_same _ _ _)

/-- Witness for C5 on a concrete save: empty file system, empty token
object, path `"tokens_egi.json"`, umask 0o022 (= 18), an arbitrary partial
chunk. -/
theorem c5_witness :
    (∀ s ∈ saveTrace fs0 (.jobj .onil) "tokens_egi.json" 18 "x",
      s "tokens_egi.json" = fs0 "tokens_egi.json" ∨
      s "tokens_egi.json" = some ⟨serializeTokens (.jobj .onil), 384⟩) ∧
    save_tokens fs0 (.jobj .onil) "tokens_egi.json" 18 "tokens_egi.json" =
      some ⟨serializeTokens (.jobj .onil), 384⟩ ∧
    384 &&& 63 = 0 :=
  c5_save_atomic_owner_only fs0 (.jobj .onil) "tokens_egi.json" 18 "x"

/-! ### Claim C6 -/
/-- C6: saving any token object (arbitrary fields, including unknown extra
provider fields, with null/boolean/integer/string/array/object values) with
`save_tokens` and loading it back with `load_tokens` returns exactly the
original object. -/
theorem c6_save_load_round_trip (fs : FS) (t : JObj) (path : String) (umask : Nat) :
    load_tokens (save_tokens fs (.jobj t) path umask) path = some (.jobj t) := by
  unfold load_tokens
  simp only [save_tokens_target]
  exact parseJson_serializeVal (.jobj t)

/-- C7: every non-200 refresh response makes `refresh_with_rt` fail with a
`RefreshFailed` carrying the status and the body (parsed JSON when
available, else the raw text), makes the CLI refresh action exit 1 with the
stored token file unchanged, and consumes no further HTTP response (no
retry). -/
theorem c7_refresh_failure_writes_nothing
    (fs : FS) (resp : HttpResp) (pending : List HttpResp) (path : String)
    (umask : Nat) (h : resp.status ≠ 200) :
    (∃ b, refresh_with_rt resp = .refreshFailed resp.status b ∧
      ((∃ j, resp.body = some j ∧ b = .json j) ∨
        (resp.body = none ∧ b = .raw resp.text))) ∧
    cli_refresh_token fs resp pending path umask = (fs, 1, pending) := by
  constructor
  · unfold refresh_with_rt
    rw [if_pos h]
    cases hb : resp.body with
    | some j => exact ⟨.json j, rfl, Or.inl ⟨j, rfl, rfl⟩⟩
    | none => exact ⟨.raw resp.text, rfl, Or.inr ⟨rfl, rfl⟩⟩
  · unfold cli_refresh_token refresh_with_rt
    rw [if_pos h]
    cases resp.body <;> rfl

/-- Witness for C7: the spec scenario of a 400 `invalid_grant` refresh
response — the error carries status and body and no file is written. -/
theorem c7_witness :
    refreshBadResp.status ≠ 200 ∧
    ((∃ b, refresh_with_rt refreshBadResp = .refreshFailed refreshBadResp.status b ∧
      ((∃ j, refreshBadResp.body = some j ∧ b = .json j) ∨
        (refreshBadResp.body = none ∧ b = .raw refreshBadResp.text))) ∧
    cli_refresh_token fs0 refreshBadResp [] "tokens_egi.json" 18 = (fs0, 1, [])) := by
  have h : refreshBadResp.status ≠ 200 := by decide
  exact ⟨h, c7_refresh_failure_writes_nothing fs0 refreshBadResp [] "tokens_egi.json" 18 h⟩

/-- C8: the revocation outcome is exactly the boolean `status == 200`; a 200
exits 0 with no error report, and any other status exits 1 reporting the
status and the body text, with the rest of the script unconsumed (no
retry). -/
theorem c8_revoke_boolean_from_200 (resp : HttpResp) (pending : List HttpResp) :
    (cli_revoke resp pending).1 = decide (resp.status = 200) ∧
    (resp.status = 200 → cli_revoke resp pending = (true, 0, none, pending)) ∧
    (resp.status ≠ 200 →
      cli_revoke resp pending = (false, 1, some (resp.status, resp.text), pending)) := by
  unfold cli_revoke revoke_token
  by_cases h : resp.status = 200
  · simp [h]
  · simp [h]

/-- Witness for C8: a 400 revocation response is reported as failure with
status and body text. -/
theorem c8_witness :
    (HttpResp.mk 400 none "bad request").status ≠ 200 ∧
    cli_revoke ⟨400, none, "bad request"⟩ [] =
      (false, 1, some ((HttpResp.mk 400 none "bad request").status,
        (HttpResp.mk 400 none "bad request").text), []) :=
  ⟨by decide, (c8_revoke_boolean_from_200 ⟨400, none, "bad request"⟩ []).2.2 (by decide)⟩
